import Mathlib

/-!
Verification of the analytics core of `src/analytics/main.py`.

The development shallowly embeds the four core components of the service:
the series builder `_daily_cash_series`, the forecast engine
`_fit_forecast` (the effective redefinition taking a `model` argument,
together with `_fit_prophet` as a fallible external fit), the scenario
overlay of the `whatif_upload` endpoint, and the cadence / next-due logic
of the `debit_orders_due` endpoint.

Modelling conventions:
* Calendar dates are day numbers (`Int`); `timedelta(days = k)` is `+ k`.
* Currency amounts are exact rationals; the Python floats obey the stated
  algebraic identities only up to rounding, and every property below is a
  property of the exact arithmetic the code expresses.
* A pandas `DataFrame` entering `_daily_cash_series` is a `MergedFrame`:
  the rows of the concatenated tables plus presence flags for the three
  columns the function itself checks (`Date`, `Credit_ZAR`, `Debit_ZAR`).
  The remaining canonical columns (notably `Balance_ZAR`) are guaranteed
  by the ingestion normalizers, so each row carries them as nullable
  values.
* Raised exceptions are `Except.error`: the two `HTTPException`s of the
  series builder and the uncaught `ValueError` that `pd.date_range`
  raises when the filtered set is empty.
-/

/-- Decidable equality on `Except`, used to evaluate the embedded
functions on concrete inputs. -/
instance {ε α : Type} [DecidableEq ε] [DecidableEq α] : DecidableEq (Except ε α) := fun a b =>
  match a, b with
  | .ok x, .ok y =>
    if h : x = y then .isTrue (by rw [h]) else .isFalse (by intro hc; cases hc; exact h rfl)
  | .error x, .error y =>
    if h : x = y then .isTrue (by rw [h]) else .isFalse (by intro hc; cases hc; exact h rfl)
  | .ok _, .error _ => .isFalse (by intro hc; cases hc)
  | .error _, .ok _ => .isFalse (by intro hc; cases hc)

/-- One transaction row of the merged statement table, after the upstream
coercions: a calendar date and the nullable `Credit_ZAR`, `Debit_ZAR` and
`Balance_ZAR` numeric fields (`none` models `NaN`). -/
structure Row where
  date : Int
  creditZAR : Option ℚ
  debitZAR : Option ℚ
  balanceZAR : Option ℚ
deriving DecidableEq, Repr

/-- The concatenation of the input tables as seen by `_daily_cash_series`:
its rows plus presence flags for the columns the function checks.  When a
flag is `false` the corresponding per-row values are the all-`NaN` column
pandas would produce; the code never reads them in that case because it
raises first. -/
structure MergedFrame where
  hasDate : Bool
  hasCredit : Bool
  hasDebit : Bool
  rows : List Row
deriving DecidableEq, Repr

/-- One output row of `_daily_cash_series`: a calendar day, its net change
`AmountZAR` and the reconstructed running balance `cash`. -/
structure DailyCashPoint where
  date : Int
  amountZAR : ℚ
  cash : ℚ
deriving DecidableEq, Repr

/-- The ways `_daily_cash_series` can fail: the two explicit
`HTTPException(400, ...)` raises for a missing `Date` column and for a
missing `Credit_ZAR` or `Debit_ZAR` column, and the uncaught pandas
`ValueError` produced by `pd.date_range(min, max)` when no rows survive
the date filter (both `min` and `max` are then `NaN`). -/
inductive SeriesError where
  | schemaDate
  | schemaCreditDebit
  | emptyRange
deriving DecidableEq, Repr

/-- Whether the failure is one of the deliberate `HTTPException` raises
(`true`) or an uncaught internal exception escaping to the framework
(`false`). -/
def SeriesError.isHTTP : SeriesError → Bool
  | .schemaDate => true
  | .schemaCreditDebit => true
  | .emptyRange => false

/-- Net amount of one row: `Credit_ZAR.fillna(0) - Debit_ZAR.fillna(0)`. -/
def rowAmount (r : Row) : ℚ := r.creditZAR.getD 0 - r.debitZAR.getD 0

/-- The inclusive `[from_date, to_date]` filter applied by
`_daily_cash_series`; an absent bound filters nothing. -/
def inWindow (fromD toD : Option Int) (d : Int) : Bool :=
  (match fromD with | some f => decide (f ≤ d) | none => true) &&
  (match toD with | some t => decide (d ≤ t) | none => true)

/-- The rows surviving the date filter. -/
def filteredRows (fr : MergedFrame) (fromD toD : Option Int) : List Row :=
  fr.rows.filter (fun r => inWindow fromD toD r.date)

/-- The grouped-by-date daily sum of `AmountZAR` over the filtered rows;
a date with no rows sums to `0`, which is exactly the value `fillna(0.0)`
assigns to the gap days after the left merge. -/
def netChange (rows : List Row) (d : Int) : ℚ :=
  ((rows.filter (fun r => decide (r.date = d))).map rowAmount).sum

/-- Earliest date among the rows (`daily["Date"].min()`; `0` unused
default for the empty case, which the caller handles separately). -/
def spanMin : List Row → Int
  | [] => 0
  | r :: rs => rs.foldl (fun m x => min m x.date) r.date

/-- Latest date among the rows (`daily["Date"].max()`). -/
def spanMax : List Row → Int
  | [] => 0
  | r :: rs => rs.foldl (fun m x => max m x.date) r.date

/-- The anchor balance: `Balance_ZAR` of the chronologically earliest
filtered row having a non-null snapshot, else `0.0`.  Among several rows
sharing the earliest date, pandas' unstable `sort_values` leaves the pick
unspecified; the model takes the first such row in input order, and no
claim below depends on that tie-break. -/
def anchorBase (rows : List Row) : ℚ :=
  match rows.filter (fun r => r.balanceZAR.isSome) with
  | [] => 0
  | r :: rs => ((rs.foldl (fun a x => if x.date < a.date then x else a) r).balanceZAR).getD 0

/-- The dense index `pd.date_range(d1, dn, freq="D")` as day numbers. -/
def calendarDays (d1 dn : Int) : List Int :=
  (List.range (dn - d1 + 1).toNat).map (fun (i : Nat) => d1 + (i : Int))

/-- The materialized points over the dense days: each day carries its net
change and the running balance `base + cumsum(AmountZAR)`, the running
sum carried left to right exactly as pandas `cumsum` does. -/
def cumPoints (rows : List Row) : ℚ → List Int → List DailyCashPoint
  | _, [] => []
  | base, d :: ds =>
    ⟨d, netChange rows d, base + netChange rows d⟩ :: cumPoints rows (base + netChange rows d) ds

/-- Embedding of `_daily_cash_series` (src/analytics/main.py lines
352-370), with the checks in source order: missing `Date` column, then
the date filter, then the credit/debit column check (which fires when
either column is absent), then the `pd.date_range` crash on an empty
filtered set, and finally the dense gap-filled prefix-sum series. -/
def dailyCashSeries (fr : MergedFrame) (fromD toD : Option Int) :
    Except SeriesError (List DailyCashPoint) :=
  if fr.hasDate = false then .error .schemaDate
  else if fr.hasCredit = false ∨ fr.hasDebit = false then .error .schemaCreditDebit
  else if (filteredRows fr fromD toD).isEmpty then .error .emptyRange
  else .ok (cumPoints (filteredRows fr fromD toD)
      (anchorBase (filteredRows fr fromD toD))
      (calendarDays (spanMin (filteredRows fr fromD toD)) (spanMax (filteredRows fr fromD toD))))

/-- Embedding of `_fit_forecast` (src/analytics/main.py lines 715-738).
The two statistical fits are external library calls (statsmodels
`ExponentialSmoothing(...).fit().forecast(h)` and `_fit_prophet`, lines
689-713); each is passed in as its observable outcome: `Except.error ()`
when construction or fitting raises for any reason (including a missing
`prophet` package), `Except.ok ys` with the predicted values otherwise.
Both library calls return exactly `horizonDays` predictions when they
succeed; theorems state that as a hypothesis on the outcomes.  The code
itself is the guard-and-fallback chain: fewer than 7 history points skip
modelling entirely; a requested `prophet` fit is tried first and falls
back to Holt-Winters; a failed Holt-Winters fit falls back to the flat
last-value (or `0.0` on empty history) projection. -/
def fitForecast (history : List ℚ) (horizonDays : Nat) (model : String)
    (prophetFit hwFit : Except Unit (List ℚ)) : List ℚ :=
  if history.length < 7 then
    List.replicate horizonDays (history.getLast?.getD 0)
  else
    match (if model = "prophet" then prophetFit else Except.error ()) with
    | .ok ys => ys
    | .error _ =>
      match hwFit with
      | .ok ys => ys
      | .error _ => List.replicate horizonDays (history.getLast?.getD 0)

/-- The horizon of the `whatif_upload` endpoint: the `horizon_days`
consecutive calendar days following the last historical date
(`[last_date + timedelta(days=i) for i in range(1, horizon_days + 1)]`). -/
def futureDates (lastDate : Int) (horizonDays : Nat) : List Int :=
  (List.range horizonDays).map (fun i => lastDate + 1 + (i : Int))

/-- One step of building the `deltas` dict:
`deltas[r.date] = deltas.get(r.date, 0.0) + float(r.delta)`, on the
association list that models the insertion-ordered Python dict. -/
def upsertDelta : List (Int × ℚ) → Int → ℚ → List (Int × ℚ)
  | [], d, x => [(d, x)]
  | (k, v) :: rest, d, x =>
    if k = d then (k, v + x) :: rest else (k, v) :: upsertDelta rest d x

/-- The `deltas` dict of `whatif_upload`: adjustment rows are folded in
input order, and a row contributes only when its date is in
`horizon_set = set(future_dates)`. -/
def buildDeltas (horizon : List Int) (adjs : List (Int × ℚ)) : List (Int × ℚ) :=
  adjs.foldl (fun m a => if a.1 ∈ horizon then upsertDelta m a.1 a.2 else m) []

/-- One pass of the application loop for a single deltas entry `e`:
`for d in future_dates: if d >= d0: path[d] += delta`.  The path is kept
as a function; only horizon dates are ever updated or read, and the
horizon built by `futureDates` has no duplicate days. -/
def applyOne (horizon : List Int) (p : Int → ℚ) (e : Int × ℚ) : Int → ℚ :=
  fun d => if d ∈ horizon ∧ e.1 ≤ d then p d + e.2 else p d

/-- The full application sweep `for d0, delta in sorted(deltas.items())`. -/
def applyDeltas (horizon : List Int) (deltas : List (Int × ℚ)) (p : Int → ℚ) : Int → ℚ :=
  deltas.foldl (applyOne horizon) p

/-- Embedding of the scenario overlay of `whatif_upload`
(src/analytics/main.py lines 554-577): build the per-date deltas map from
the adjustments that fall inside the horizon, raise the no-overlap
`HTTPException` when that map is empty, otherwise apply every delta to
its own date and all later horizon dates and return the `(date, cash)`
scenario list.  `base` is the base forecast value at each future date. -/
def whatifUpload (lastDate : Int) (horizonDays : Nat) (base : Int → ℚ)
    (adjs : List (Int × ℚ)) : Except Unit (List (Int × ℚ)) :=
  let fds := futureDates lastDate horizonDays
  let deltas := buildDeltas fds adjs
  if deltas.isEmpty then .error ()
  else
    let path := applyDeltas fds (List.insertionSort (fun a b => a.1 ≤ b.1) deltas) base
    .ok (fds.map (fun d => (d, path d)))

/-- Consecutive differences `dates.diff().dropna()` of a (sorted) date
sequence. -/
def diffs : List Int → List Int
  | a :: b :: rest => (b - a) :: diffs (b :: rest)
  | _ => []

/-- The gap list a group produces in `debit_orders_due` (src lines
614-618): the group's dates are sorted and differenced.  Duplicates are
kept: `g["Date"].sort_values()` does not deduplicate, so two transactions
on the same day contribute a gap of `0`. -/
def sortedGaps (dates : List Int) : List Int :=
  diffs (List.insertionSort (fun a b => a ≤ b) dates)

/-- The pandas `Series.median()` of a list of integer gaps: middle
element of the sorted values for odd length, mean of the two middle
elements for even length (`0` for the empty list, which the callers
guard against). -/
def medianOf (xs : List Int) : ℚ :=
  let s := List.insertionSort (fun a b => a ≤ b) xs
  if s.length = 0 then 0
  else if s.length % 2 = 1 then ((s.getD (s.length / 2) 0 : Int) : ℚ)
  else (((s.getD (s.length / 2 - 1) 0 : Int) : ℚ) + ((s.getD (s.length / 2) 0 : Int) : ℚ)) / 2

/-- `monthly_like = (len(gaps) >= 2) and (27 <= gaps.median() <= 34)`
(src line 619). -/
def monthlyLike (dates : List Int) : Bool :=
  decide (2 ≤ (sortedGaps dates).length) &&
    (decide ((27 : ℚ) ≤ medianOf (sortedGaps dates)) &&
      decide (medianOf (sortedGaps dates) ≤ 34))

/-- `weekly_like = (len(gaps) >= 2) and (6 <= gaps.median() <= 8)`
(src line 620). -/
def weeklyLike (dates : List Int) : Bool :=
  decide (2 ≤ (sortedGaps dates).length) &&
    (decide ((6 : ℚ) ≤ medianOf (sortedGaps dates)) &&
      decide (medianOf (sortedGaps dates) ≤ 8))

/-- The gap list the claim describes instead: gaps of the sorted list of
distinct dates.  Stated from the claim text, for comparison with the
code's `sortedGaps`. -/
def specDistinctGaps (dates : List Int) : List Int :=
  diffs (List.insertionSort (fun a b => a ≤ b) dates.dedup)

/-- Monthly-likeness as the claim words it: at least 2 gaps between
consecutive distinct dates with median in `[27, 34]`. -/
def specMonthlyLike (dates : List Int) : Bool :=
  decide (2 ≤ (specDistinctGaps dates).length) &&
    (decide ((27 : ℚ) ≤ medianOf (specDistinctGaps dates)) &&
      decide (medianOf (specDistinctGaps dates) ≤ 34))

/-- Weekly-likeness as the claim words it: at least 2 gaps between
consecutive distinct dates with median in `[6, 8]`. -/
def specWeeklyLike (dates : List Int) : Bool :=
  decide (2 ≤ (specDistinctGaps dates).length) &&
    (decide ((6 : ℚ) ≤ medianOf (specDistinctGaps dates)) &&
      decide (medianOf (specDistinctGaps dates) ≤ 8))

/-- `last = dates.iloc[-1]` after the sort: the latest observed date. -/
def lastObserved (dates : List Int) : Int :=
  (List.insertionSort (fun a b => a ≤ b) dates).getLastD 0

/-- The weekly-cadence next-due projection (src lines 644-646):
`nd = last + 7`; keep it when `nd >= today`, otherwise add
`((today - nd).days // 7 + 1) * 7` days.  In the second branch
`today - nd` is positive, so Python floor division agrees with natural
division on `(today - nd).toNat`. -/
def nextDueWeekly (last today : Int) : Int :=
  let nd := last + 7
  if today ≤ nd then nd
  else nd + (((today - nd).toNat / 7 + 1 : Nat) : Int) * 7

/-- The per-group next-due dispatch of `debit_orders_due` (src lines
635-646): the monthly / keyword branch wins first, then the weekly
branch, otherwise no projection.  The day-of-month candidate computed by
the monthly branch is calendar arithmetic (mode of day-of-month, clamped
to month end) that no claim here depends on, so it enters as the already
computed value `monthlyCandidate`. -/
def groupNextDue (dates : List Int) (kw : Bool) (today monthlyCandidate : Int) : Option Int :=
  if monthlyLike dates || kw then some monthlyCandidate
  else if weeklyLike dates then some (nextDueWeekly (lastObserved dates) today)
  else none

/-- A two-day frame used to exercise the series builder: a credit of 10
with a balance snapshot of 100 on day 0, and a debit of 5 on day 2. -/
def exFrame : MergedFrame :=
  ⟨true, true, true, [⟨0, some 10, none, some 100⟩, ⟨2, none, some 5, none⟩]⟩

/-- The daily series the code produces for `exFrame`. -/
def exPts : List DailyCashPoint := [⟨0, 10, 110⟩, ⟨1, 0, 110⟩, ⟨2, -5, 105⟩]

/-- A frame with a `Date` and a `Credit_ZAR` column but no `Debit_ZAR`
column. -/
def noDebitFrame : MergedFrame := ⟨true, true, false, [⟨0, some 10, none, none⟩]⟩

/-- A frame lacking the `Date` column. -/
def noDateFrame : MergedFrame := ⟨false, true, true, []⟩

/-- A one-row frame whose single day has a nonzero net change and a
balance snapshot. -/
def anchorFrame : MergedFrame := ⟨true, true, true, [⟨0, some 100, none, some 500⟩]⟩

/-- A schema-complete frame whose only row (day 0) is removed by a
`from_date = 5` filter. -/
def earlyRowFrame : MergedFrame := ⟨true, true, true, [⟨0, some 10, none, none⟩]⟩

theorem cumPoints_length (rows : List Row) (days : List Int) (base : ℚ) :
    (cumPoints rows base days).length = days.length := by
  induction days generalizing base with
  | nil => rfl
  | cons d ds ih => simp [cumPoints, ih]

theorem cumPoints_map_date (rows : List Row) (days : List Int) (base : ℚ) :
    (cumPoints rows base days).map (fun p => p.date) = days := by
  induction days generalizing base with
  | nil => rfl
  | cons d ds ih => simp [cumPoints, ih]

theorem cumPoints_amount (rows : List Row) (days : List Int) (base : ℚ) :
    ∀ p ∈ cumPoints rows base days, p.amountZAR = netChange rows p.date := by
  induction days generalizing base with
  | nil => intro p hp; cases hp
  | cons d ds ih =>
    intro p hp
    rcases List.mem_cons.mp hp with rfl | hp2
    · rfl
    · exact ih _ _ hp2

theorem cumPoints_take_amount (rows : List Row) (days : List Int) (base : ℚ) (n : Nat) :
    ((cumPoints rows base days).take n).map (fun p => p.amountZAR)
      = (days.take n).map (fun d => netChange rows d) := by
  induction days generalizing base n with
  | nil => simp [cumPoints]
  | cons d ds ih =>
    cases n with
    | zero => simp
    | succ m => simp [cumPoints, ih]

theorem cumPoints_cash (rows : List Row) (days : List Int) (base : ℚ) (i : Nat)
    (h : i < (cumPoints rows base days).length) :
    ((cumPoints rows base days).get ⟨i, h⟩).cash
      = base + ((days.take (i + 1)).map (fun d => netChange rows d)).sum := by
  induction days generalizing base i with
  | nil => simp [cumPoints] at h
  | cons d ds ih =>
    cases i with
    | zero => simp [cumPoints]
    | succ n =>
      have hn : n < (cumPoints rows (base + netChange rows d) ds).length := by
        simpa [cumPoints] using h
      have := ih (base + netChange rows d) n hn
      simp only [cumPoints, List.get_cons_succ, this, List.take_succ_cons, List.map_cons,
        List.sum_cons]
      ring

theorem cumPoints_head (rows : List Row) (days : List Int) (base : ℚ) (p : DailyCashPoint)
    (hp : (cumPoints rows base days).head? = some p) :
    p.cash = base + p.amountZAR := by
  cases days with
  | nil => simp [cumPoints] at hp
  | cons d ds =>
    simp only [cumPoints, List.head?_cons, Option.some.injEq] at hp
    subst hp
    rfl

theorem cumPoints_cash_step (rows : List Row) (days : List Int) (base : ℚ) (i : Nat)
    (h : i + 1 < (cumPoints rows base days).length) :
    ((cumPoints rows base days).get ⟨i + 1, h⟩).cash
      = ((cumPoints rows base days).get ⟨i, Nat.lt_of_succ_lt h⟩).cash
        + ((cumPoints rows base days).get ⟨i + 1, h⟩).amountZAR := by
  induction days generalizing base i with
  | nil => simp [cumPoints] at h
  | cons d ds ih =>
    cases i with
    | zero =>
      cases ds with
      | nil => simp [cumPoints] at h
      | cons d2 ds2 => simp [cumPoints]
    | succ n =>
      have h' : n + 1 < (cumPoints rows (base + netChange rows d) ds).length := by
        simpa [cumPoints] using h
      simpa [cumPoints] using ih (base + netChange rows d) n h'

theorem calendarDays_nodup (d1 dn : Int) : (calendarDays d1 dn).Nodup := by
  unfold calendarDays
  have h2 : Function.Injective (fun (i : Nat) => d1 + (i : Int)) := by
    intro a b hab
    have h3 : d1 + (a : Int) = d1 + b := hab
    omega
  exact List.Nodup.map h2 (List.nodup_range _)

theorem mem_calendarDays (d1 dn : Int) (hle : d1 ≤ dn) (d : Int) :
    d ∈ calendarDays d1 dn ↔ d1 ≤ d ∧ d ≤ dn := by
  simp only [calendarDays, List.mem_map, List.mem_range]
  constructor
  · rintro ⟨i, hi, rfl⟩
    omega
  · intro hd
    exact ⟨(d - d1).toNat, by omega, by omega⟩

theorem foldl_min_le (rs : List Row) (m : Int) :
    rs.foldl (fun m x => min m x.date) m ≤ m := by
  induction rs generalizing m with
  | nil => exact le_refl m
  | cons r rs ih => exact le_trans (ih _) (min_le_left _ _)

theorem le_foldl_max (rs : List Row) (m : Int) :
    m ≤ rs.foldl (fun m x => max m x.date) m := by
  induction rs generalizing m with
  | nil => exact le_refl m
  | cons r rs ih => exact le_trans (le_max_left _ _) (ih _)

theorem spanMin_le_spanMax (rows : List Row) (h : rows ≠ []) :
    spanMin rows ≤ spanMax rows := by
  cases rows with
  | nil => exact absurd rfl h
  | cons r rs => exact le_trans (foldl_min_le rs r.date) (le_foldl_max rs r.date)

theorem netChange_of_no_row (rows : List Row) (d : Int)
    (h : ∀ r ∈ rows, r.date ≠ d) : netChange rows d = 0 := by
  unfold netChange
  have : rows.filter (fun r => decide (r.date = d)) = [] := by
    rw [List.filter_eq_nil_iff]
    intro r hr
    simpa using h r hr
  rw [this]
  rfl

theorem dailyCashSeries_ok_elim {fr : MergedFrame} {fromD toD : Option Int}
    {pts : List DailyCashPoint} (hok : dailyCashSeries fr fromD toD = .ok pts) :
    filteredRows fr fromD toD ≠ []
    ∧ pts = cumPoints (filteredRows fr fromD toD) (anchorBase (filteredRows fr fromD toD))
        (calendarDays (spanMin (filteredRows fr fromD toD))
          (spanMax (filteredRows fr fromD toD))) := by
  unfold dailyCashSeries at hok
  split at hok
  · cases hok
  · split at hok
    · cases hok
    · split at hok
      · cases hok
      · rename_i hne
        injection hok with hok
        refine ⟨?_, hok.symm⟩
        intro hnil
        simp [hnil] at hne

/-- C2 (confirmed): for every series built by the series builder with
anchor balance `A` and per-day net changes `c1..ck` in date order, the
cash balance at index `i` equals `A + (c1 + ... + ci)`, the changes being
counted 1-based up to and including the day at that index. -/
theorem series_prefix_sum (fr : MergedFrame) (fromD toD : Option Int)
    (pts : List DailyCashPoint) (hok : dailyCashSeries fr fromD toD = .ok pts)
    (i : Nat) (h : i < pts.length) :
    (pts.get ⟨i, h⟩).cash
      = anchorBase (filteredRows fr fromD toD)
        + ((pts.take (i + 1)).map (fun p => p.amountZAR)).sum := by
  obtain ⟨hne, hpts⟩ := dailyCashSeries_ok_elim hok
  subst hpts
  rw [cumPoints_cash, cumPoints_take_amount]

/-- Witness for C2: the series of `exFrame` at index 2. -/
theorem series_prefix_sum_witness :
    dailyCashSeries exFrame none none = .ok exPts
    ∧ (exPts.get ⟨2, by norm_num [exPts]⟩).cash
        = anchorBase (filteredRows exFrame none none)
          + ((exPts.take 3).map (fun p => p.amountZAR)).sum := by
  have hcal : calendarDays 0 2 = [0, 1, 2] := by decide
  have hok : dailyCashSeries exFrame none none = .ok exPts := by
    norm_num [dailyCashSeries, exFrame, exPts, filteredRows, inWindow, spanMin, spanMax, hcal,
      netChange, rowAmount, anchorBase, cumPoints]
  exact ⟨hok, series_prefix_sum exFrame none none exPts hok 2 (by norm_num [exPts])⟩

/-- C3 (confirmed): the output contains exactly one point per calendar
day in the inclusive span of the surviving rows — its dates are exactly
the dense range, without duplicates and without gaps — and a day with no
surviving transaction carries net change `0`. -/
theorem series_gap_filling (fr : MergedFrame) (fromD toD : Option Int)
    (pts : List DailyCashPoint) (hok : dailyCashSeries fr fromD toD = .ok pts) :
    pts.map (fun p => p.date)
      = calendarDays (spanMin (filteredRows fr fromD toD))
          (spanMax (filteredRows fr fromD toD))
    ∧ (pts.map (fun p => p.date)).Nodup
    ∧ (∀ d : Int, d ∈ pts.map (fun p => p.date) ↔
        spanMin (filteredRows fr fromD toD) ≤ d ∧ d ≤ spanMax (filteredRows fr fromD toD))
    ∧ (∀ p ∈ pts, (∀ r ∈ filteredRows fr fromD toD, r.date ≠ p.date) → p.amountZAR = 0) := by
  obtain ⟨hne, hpts⟩ := dailyCashSeries_ok_elim hok
  subst hpts
  have hmap := cumPoints_map_date (filteredRows fr fromD toD)
    (calendarDays (spanMin (filteredRows fr fromD toD)) (spanMax (filteredRows fr fromD toD)))
    (anchorBase (filteredRows fr fromD toD))
  refine ⟨hmap, ?_, ?_, ?_⟩
  · rw [hmap]
    exact calendarDays_nodup _ _
  · intro d
    rw [hmap]
    exact mem_calendarDays _ _ (spanMin_le_spanMax _ hne) d
  · intro p hp hnd
    rw [cumPoints_amount _ _ _ p hp]
    exact netChange_of_no_row _ _ hnd

/-- Witness for C3: the dates of the `exFrame` series are exactly days
0, 1, 2. -/
theorem series_gap_filling_witness :
    dailyCashSeries exFrame none none = .ok exPts
    ∧ exPts.map (fun p => p.date)
        = calendarDays (spanMin (filteredRows exFrame none none))
            (spanMax (filteredRows exFrame none none)) := by
  have hcal : calendarDays 0 2 = [0, 1, 2] := by decide
  have hok : dailyCashSeries exFrame none none = .ok exPts := by
    norm_num [dailyCashSeries, exFrame, exPts, filteredRows, inWindow, spanMin, spanMax, hcal,
      netChange, rowAmount, anchorBase, cumPoints]
  exact ⟨hok, (series_gap_filling exFrame none none exPts hok).1⟩

/-- C4 is false as stated: on `anchorFrame` (one row, day 0, credit 100,
balance snapshot 500) the anchor is 500 but the first point's cash is
600 — pandas `cumsum` includes the first day's net change, so the first
balance is anchor plus first-day change, not the anchor. -/
theorem series_first_point_cex :
    dailyCashSeries anchorFrame none none = .ok [⟨0, 100, 600⟩]
    ∧ anchorBase (filteredRows anchorFrame none none) = 500
    ∧ ((600 : ℚ) ≠ 500) := by
  have hcal : calendarDays 0 0 = [0] := by decide
  refine ⟨?_, ?_, by norm_num⟩
  · norm_num [dailyCashSeries, anchorFrame, filteredRows, inWindow, spanMin, spanMax, hcal,
      netChange, rowAmount, anchorBase, cumPoints]
  · norm_num [anchorFrame, filteredRows, inWindow, anchorBase]

/-- C4 amended (proved): the first point's balance equals the anchor
plus the first day's net change; each subsequent point's balance equals
the previous point's balance plus that day's net change. -/
theorem series_running_balance (fr : MergedFrame) (fromD toD : Option Int)
    (pts : List DailyCashPoint) (hok : dailyCashSeries fr fromD toD = .ok pts) :
    (∀ p, pts.head? = some p →
        p.cash = anchorBase (filteredRows fr fromD toD) + p.amountZAR)
    ∧ (∀ i (h : i + 1 < pts.length),
        (pts.get ⟨i + 1, h⟩).cash
          = (pts.get ⟨i, Nat.lt_of_succ_lt h⟩).cash + (pts.get ⟨i + 1, h⟩).amountZAR) := by
  obtain ⟨hne, hpts⟩ := dailyCashSeries_ok_elim hok
  subst hpts
  exact ⟨fun p hp => cumPoints_head _ _ _ p hp, fun i h => cumPoints_cash_step _ _ _ i h⟩

/-- Witness for the amended C4: on `exFrame`, point 1 continues point 0
by its own net change. -/
theorem series_running_balance_witness :
    dailyCashSeries exFrame none none = .ok exPts
    ∧ (exPts.get ⟨1, by norm_num [exPts]⟩).cash
        = (exPts.get ⟨0, by norm_num [exPts]⟩).cash
          + (exPts.get ⟨1, by norm_num [exPts]⟩).amountZAR := by
  have hcal : calendarDays 0 2 = [0, 1, 2] := by decide
  have hok : dailyCashSeries exFrame none none = .ok exPts := by
    norm_num [dailyCashSeries, exFrame, exPts, filteredRows, inWindow, spanMin, spanMax, hcal,
      netChange, rowAmount, anchorBase, cumPoints]
  exact ⟨hok, (series_running_balance exFrame none none exPts hok).2 0 (by norm_num [exPts])⟩

/-- C5 is false as stated: `noDebitFrame` has a `Date` column and a
`Credit_ZAR` column (so at least one of credit/debit), yet the builder
rejects it with the schema error — the code raises when either of the
two columns is missing, not only when both are. -/
theorem series_schema_cex :
    noDebitFrame.hasDate = true ∧ noDebitFrame.hasCredit = true
    ∧ dailyCashSeries noDebitFrame none none = .error .schemaCreditDebit := by
  refine ⟨rfl, rfl, ?_⟩
  norm_num [dailyCashSeries, noDebitFrame]

/-- C5 amended (proved): the builder fails with a schema error exactly
when the merged set lacks the date column, or lacks the credit column,
or lacks the debit column. -/
theorem series_schema_amended (fr : MergedFrame) (fromD toD : Option Int) :
    (dailyCashSeries fr fromD toD = .error .schemaDate
      ∨ dailyCashSeries fr fromD toD = .error .schemaCreditDebit)
    ↔ (fr.hasDate = false ∨ fr.hasCredit = false ∨ fr.hasDebit = false) := by
  unfold dailyCashSeries
  split
  · rename_i h1
    simp [h1]
  · rename_i h1
    split
    · rename_i h2
      simp only [Bool.not_eq_false] at h1
      simp [h1]
      tauto
    · rename_i h2
      push_neg at h2
      simp only [Bool.not_eq_false] at h1
      split <;> simp [h1, h2.1, h2.2]

/-- Witness for the amended C5: a frame without a `Date` column is
schema-rejected. -/
theorem series_schema_amended_witness :
    dailyCashSeries noDateFrame none none = .error .schemaDate
    ∨ dailyCashSeries noDateFrame none none = .error .schemaCreditDebit :=
  (series_schema_amended noDateFrame none none).mpr (Or.inl rfl)

/-- C6 is false as stated: on `earlyRowFrame` with `from_date = 5` no
row survives, and the builder fails — but with the uncaught pandas
`ValueError` from `pd.date_range` (modelled `emptyRange`, not an
`HTTPException` and carrying no filter bounds), not with a structured
empty-series error surfaced to the caller. -/
theorem series_empty_filter_cex :
    dailyCashSeries earlyRowFrame (some 5) none = .error .emptyRange
    ∧ SeriesError.isHTTP .emptyRange = false
    ∧ SeriesError.isHTTP .schemaDate = true
    ∧ SeriesError.isHTTP .schemaCreditDebit = true := by
  refine ⟨?_, rfl, rfl, rfl⟩
  norm_num [dailyCashSeries, earlyRowFrame, filteredRows, inWindow]

/-- C6 amended (proved): whenever the schema checks pass and no row
survives the filter, the builder fails with the uncaught internal
`pd.date_range` error — an exception that is not one of the deliberate
`HTTPException` raises and carries no filter bounds. -/
theorem series_empty_filter_amended (fr : MergedFrame) (fromD toD : Option Int)
    (hd : fr.hasDate = true) (hc : fr.hasCredit = true) (hb : fr.hasDebit = true)
    (hemp : filteredRows fr fromD toD = []) :
    dailyCashSeries fr fromD toD = .error .emptyRange
    ∧ SeriesError.isHTTP SeriesError.emptyRange = false := by
  refine ⟨?_, rfl⟩
  unfold dailyCashSeries
  simp [hd, hc, hb, hemp]

/-- Witness for the amended C6. -/
theorem series_empty_filter_amended_witness :
    dailyCashSeries earlyRowFrame (some 5) none = .error .emptyRange :=
  (series_empty_filter_amended earlyRowFrame (some 5) none rfl rfl rfl
    (by norm_num [earlyRowFrame, filteredRows, inWindow])).1

/-- C1 (confirmed): for every history (length 0, 1, 6, ... included),
every horizon in `[1, 120]` and either selectable model, the forecast
engine returns exactly `H` values and never propagates an exception —
every fit outcome, including both fits raising, yields a result, and
when every attempted fit fails the result is the flat last-value
projection.  The two hypotheses on the fit outcomes record the library
contract that a successful `forecast(H)` / `predict` call returns
exactly `H` predictions. -/
theorem forecast_totality (history : List ℚ) (h : Nat) (model : String)
    (prophetFit hwFit : Except Unit (List ℚ))
    (h1 : 1 ≤ h) (h2 : h ≤ 120)
    (hp : ∀ ys, prophetFit = .ok ys → ys.length = h)
    (hw : ∀ ys, hwFit = .ok ys → ys.length = h) :
    (fitForecast history h model prophetFit hwFit).length = h
    ∧ (hwFit = .error () → (model = "prophet" → prophetFit = .error ()) →
        fitForecast history h model prophetFit hwFit
          = List.replicate h (history.getLast?.getD 0)) := by
  constructor
  · unfold fitForecast
    split
    · exact List.length_replicate _ _
    · by_cases hm : model = "prophet"
      · rw [if_pos hm]
        cases prophetFit with
        | ok ys => exact hp _ rfl
        | error u =>
          cases hwFit with
          | ok ys => exact hw _ rfl
          | error v => exact List.length_replicate _ _
      · rw [if_neg hm]
        cases hwFit with
        | ok ys => exact hw _ rfl
        | error v => exact List.length_replicate _ _
  · intro he hpe
    unfold fitForecast
    split
    · rfl
    · have hif : (if model = "prophet" then prophetFit else Except.error ()) =
          (Except.error () : Except Unit (List ℚ)) := by
        by_cases hm : model = "prophet"
        · rw [if_pos hm]
          exact hpe hm
        · rw [if_neg hm]
      rw [hif, he]

/-- Witness for C1: a 7-point history, horizon 3, both fits failing. -/
theorem forecast_totality_witness :
    (fitForecast [1, 2, 3, 4, 5, 6, 7] 3 "hw" (.error ()) (.error ())).length = 3
    ∧ fitForecast [1, 2, 3, 4, 5, 6, 7] 3 "hw" (.error ()) (.error ())
        = List.replicate 3 (7 : ℚ) := by
  have h := forecast_totality [1, 2, 3, 4, 5, 6, 7] 3 "hw" (.error ()) (.error ())
    (by norm_num) (by norm_num) (fun ys hys => by cases hys) (fun ys hys => by cases hys)
  refine ⟨h.1, ?_⟩
  have h3 := h.2 rfl (fun _ => rfl)
  have h77 : ([1, 2, 3, 4, 5, 6, 7] : List ℚ).getLast?.getD 0 = 7 := rfl
  rw [h77] at h3
  exact h3

/-- C10 (confirmed): on an empty history the forecast engine returns,
for every horizon, model selection and fit outcomes, exactly `H` points
all equal to `0.0` — the flat projection is seeded with `0.0`. -/
theorem forecast_empty_history (h : Nat) (model : String)
    (prophetFit hwFit : Except Unit (List ℚ)) :
    fitForecast [] h model prophetFit hwFit = List.replicate h 0
    ∧ (fitForecast [] h model prophetFit hwFit).length = h
    ∧ ∀ x ∈ fitForecast [] h model prophetFit hwFit, x = 0 := by
  have hz : fitForecast [] h model prophetFit hwFit = List.replicate h 0 := by
    unfold fitForecast
    simp
  refine ⟨hz, by rw [hz]; exact List.length_replicate _ _, ?_⟩
  intro x hx
  rw [hz] at hx
  exact List.eq_of_mem_replicate hx

theorem applyOne_eval (hz : List Int) (p : Int → ℚ) (e : Int × ℚ) (d : Int) :
    applyOne hz p e d = p d + (if d ∈ hz ∧ e.1 ≤ d then e.2 else 0) := by
  unfold applyOne
  split <;> simp

theorem applyDeltas_eval (hz : List Int) (ds : List (Int × ℚ)) (p : Int → ℚ) (d : Int) :
    applyDeltas hz ds p d
      = p d + (if d ∈ hz
          then ((ds.filter (fun e => decide (e.1 ≤ d))).map Prod.snd).sum else 0) := by
  induction ds generalizing p with
  | nil => simp [applyDeltas]
  | cons e rest ih =>
    show applyDeltas hz rest (applyOne hz p e) d = _
    rw [ih (applyOne hz p e), applyOne_eval]
    by_cases hmem : d ∈ hz
    · by_cases hle : e.1 ≤ d
      · simp [hmem, hle, List.filter_cons]
        ring
      · simp [hmem, hle, List.filter_cons]
    · simp [hmem]

theorem upsertDelta_sum_le (m : List (Int × ℚ)) (k : Int) (x : ℚ) (d : Int) :
    (((upsertDelta m k x).filter (fun e => decide (e.1 ≤ d))).map Prod.snd).sum
      = ((m.filter (fun e => decide (e.1 ≤ d))).map Prod.snd).sum
        + (if k ≤ d then x else 0) := by
  induction m with
  | nil =>
    by_cases hle : k ≤ d <;> simp [upsertDelta, List.filter_cons, hle]
  | cons e rest ih =>
    obtain ⟨a, b⟩ := e
    show ((List.filter _ (if a = k then (a, b + x) :: rest
        else (a, b) :: upsertDelta rest k x)).map Prod.snd).sum = _
    by_cases hk : a = k
    · subst hk
      rw [if_pos rfl]
      by_cases hle : a ≤ d
      · simp [List.filter_cons, hle]
        ring
      · simp [List.filter_cons, hle]
    · rw [if_neg hk]
      by_cases hle : a ≤ d
      · simp [List.filter_cons, hle, ih]
        ring
      · simp [List.filter_cons, hle, ih]

theorem foldl_upsert_sum_le (hz : List Int) (adjs : List (Int × ℚ)) (m : List (Int × ℚ))
    (d : Int) :
    (((adjs.foldl (fun m a => if a.1 ∈ hz then upsertDelta m a.1 a.2 else m) m).filter
        (fun e => decide (e.1 ≤ d))).map Prod.snd).sum
      = ((m.filter (fun e => decide (e.1 ≤ d))).map Prod.snd).sum
        + ((adjs.filter (fun a => decide (a.1 ∈ hz) && decide (a.1 ≤ d))).map Prod.snd).sum := by
  induction adjs generalizing m with
  | nil => simp
  | cons a rest ih =>
    simp only [List.foldl_cons]
    rw [ih]
    by_cases hmem : a.1 ∈ hz
    · rw [if_pos hmem, upsertDelta_sum_le]
      by_cases hle : a.1 ≤ d
      · simp [List.filter_cons, hmem, hle]
        ring
      · simp [List.filter_cons, hmem, hle]
    · rw [if_neg hmem]
      simp [List.filter_cons, hmem]

theorem buildDeltas_sum_le (hz : List Int) (adjs : List (Int × ℚ)) (d : Int) :
    (((buildDeltas hz adjs).filter (fun e => decide (e.1 ≤ d))).map Prod.snd).sum
      = ((adjs.filter (fun a => decide (a.1 ∈ hz) && decide (a.1 ≤ d))).map Prod.snd).sum := by
  have h := foldl_upsert_sum_le hz adjs [] d
  simpa [buildDeltas] using h

theorem sortDeltas_sum_le (ds : List (Int × ℚ)) (d : Int) :
    (((List.insertionSort (fun a b => a.1 ≤ b.1) ds).filter
        (fun e => decide (e.1 ≤ d))).map Prod.snd).sum
      = ((ds.filter (fun e => decide (e.1 ≤ d))).map Prod.snd).sum :=
  List.Perm.sum_eq (List.Perm.map _
    (List.Perm.filter _ (List.perm_insertionSort (fun a b => a.1 ≤ b.1) ds)))

theorem upsertDelta_ne_nil (m : List (Int × ℚ)) (k : Int) (x : ℚ) :
    upsertDelta m k x ≠ [] := by
  cases m with
  | nil => simp [upsertDelta]
  | cons e rest =>
    obtain ⟨a, b⟩ := e
    show (if a = k then (a, b + x) :: rest else (a, b) :: upsertDelta rest k x) ≠ []
    split <;> simp

theorem foldl_upsert_eq_nil (hz : List Int) (adjs : List (Int × ℚ)) (m : List (Int × ℚ)) :
    (adjs.foldl (fun m a => if a.1 ∈ hz then upsertDelta m a.1 a.2 else m) m) = []
      ↔ m = [] ∧ ∀ a ∈ adjs, a.1 ∉ hz := by
  induction adjs generalizing m with
  | nil => simp
  | cons a rest ih =>
    simp only [List.foldl_cons]
    rw [ih]
    by_cases hmem : a.1 ∈ hz
    · rw [if_pos hmem]
      simp [upsertDelta_ne_nil, hmem]
    · rw [if_neg hmem]
      simp [hmem]

theorem buildDeltas_eq_nil_iff (hz : List Int) (adjs : List (Int × ℚ)) :
    buildDeltas hz adjs = [] ↔ ∀ a ∈ adjs, a.1 ∉ hz := by
  rw [buildDeltas, foldl_upsert_eq_nil]
  simp

/-- C7 amended (proved): given at least one adjustment dated inside the
horizon, the adjusted value at every future date `d` is the base value
at `d` plus the sum of the deltas of the supplied adjustments whose date
lies within the horizon and is at most `d` — adjustments dated outside
the horizon (even before it, which the claim as stated would count) are
discarded. -/
theorem whatif_adjusted (lastDate : Int) (horizonDays : Nat) (base : Int → ℚ)
    (adjs : List (Int × ℚ))
    (hov : ∃ a ∈ adjs, a.1 ∈ futureDates lastDate horizonDays) :
    whatifUpload lastDate horizonDays base adjs
      = .ok ((futureDates lastDate horizonDays).map (fun d =>
          (d, base d + ((adjs.filter (fun a =>
              decide (a.1 ∈ futureDates lastDate horizonDays)
                && decide (a.1 ≤ d))).map Prod.snd).sum))) := by
  have hne2 : buildDeltas (futureDates lastDate horizonDays) adjs ≠ [] := by
    rw [Ne, buildDeltas_eq_nil_iff]
    intro hall
    obtain ⟨a, ha, hmem⟩ := hov
    exact hall a ha hmem
  unfold whatifUpload
  rw [if_neg (by simpa using hne2)]
  refine congrArg Except.ok ?_
  apply List.map_congr_left
  intro d hd
  simp only [applyDeltas_eval, if_pos hd, sortDeltas_sum_le, buildDeltas_sum_le]

/-- Witness for the amended C7: one in-horizon adjustment over a
two-day horizon. -/
theorem whatif_adjusted_witness :
    whatifUpload 0 2 (fun _ => 0) [(1, 100)] = .ok [(1, 100), (2, 100)] := by
  have hfd : futureDates 0 2 = [1, 2] := by decide
  have h := whatif_adjusted 0 2 (fun _ => 0) [(1, 100)]
    ⟨(1, 100), by norm_num, by rw [hfd]; norm_num⟩
  rw [h, hfd]
  norm_num [List.filter]

/-- C7 is false as stated: with base value `0` over future days `[1, 2]`
and supplied adjustments `[(1, 100), (0, 50)]` (one inside the horizon,
so no overlap error), the engine drops the adjustment dated day 0 —
before the horizon, hence with date `≤` every future date — and yields
`100` at day 2, while the claim's "sum of the deltas of every supplied
adjustment whose effective date is ≤ d" gives `0 + (100 + 50) = 150`. -/
theorem whatif_cex :
    whatifUpload 0 2 (fun _ => 0) [(1, 100), (0, 50)] = .ok [(1, 100), (2, 100)]
    ∧ (0 : ℚ) + ((([((1 : Int), (100 : ℚ)), (0, 50)].filter
        (fun a => decide (a.1 ≤ (2 : Int)))).map Prod.snd).sum) = 150
    ∧ ((100 : ℚ) ≠ 150) := by
  refine ⟨?_, by norm_num [List.filter], by norm_num⟩
  norm_num [whatifUpload, futureDates, buildDeltas, upsertDelta, applyDeltas, applyOne,
    List.range_succ, List.insertionSort, List.orderedInsert]

/-- C8 is false as stated: the group with dates `[0, 0, 0, 30, 60]`
(three transactions on day 0, then days 30 and 60).  The distinct dates
are `[0, 30, 60]` with gaps `[30, 30]` and median 30 ∈ [27, 34], so the
claim classifies it monthly-like; the code does not deduplicate
(`g["Date"].sort_values()` keeps duplicates), sees gaps `[0, 0, 30, 30]`
with median 15, and classifies it as having no cadence. -/
theorem cadence_cex :
    monthlyLike [0, 0, 0, 30, 60] = false
    ∧ specMonthlyLike [0, 0, 0, 30, 60] = true := by
  constructor
  · norm_num [monthlyLike, sortedGaps, medianOf, List.insertionSort, List.orderedInsert, diffs]
  · norm_num [specMonthlyLike, specDistinctGaps, medianOf, List.insertionSort,
      List.orderedInsert, diffs, List.dedup_cons_of_mem, List.dedup_cons_of_not_mem]

/-- C8 amended (proved): cadence is monthly-like iff the sorted list of
the group's transaction dates with duplicates retained yields at least 2
gaps between consecutive entries whose median lies in `[27, 34]`, and
weekly-like iff at least 2 such gaps exist with median in `[6, 8]`;
otherwise (the bands being mutually exclusive) the cadence is none.  For
a group whose dates are pairwise distinct this coincides with the
claim's distinct-dates reading. -/
theorem cadence_amended (dates : List Int) :
    (monthlyLike dates = true ↔
      2 ≤ (sortedGaps dates).length
        ∧ (27 : ℚ) ≤ medianOf (sortedGaps dates) ∧ medianOf (sortedGaps dates) ≤ 34)
    ∧ (weeklyLike dates = true ↔
      2 ≤ (sortedGaps dates).length
        ∧ (6 : ℚ) ≤ medianOf (sortedGaps dates) ∧ medianOf (sortedGaps dates) ≤ 8)
    ∧ ¬(monthlyLike dates = true ∧ weeklyLike dates = true)
    ∧ (dates.Nodup → monthlyLike dates = specMonthlyLike dates
        ∧ weeklyLike dates = specWeeklyLike dates) := by
  refine ⟨?_, ?_, ?_, ?_⟩
  · simp [monthlyLike]
  · simp [weeklyLike]
  · rintro ⟨hm, hw⟩
    simp only [monthlyLike, weeklyLike, Bool.and_eq_true, decide_eq_true_eq] at hm hw
    obtain ⟨-, h27, -⟩ := hm
    obtain ⟨-, -, h8⟩ := hw
    linarith
  · intro hnd
    have hd : dates.dedup = dates := List.dedup_eq_self.mpr hnd
    constructor
    · simp [monthlyLike, specMonthlyLike, specDistinctGaps, sortedGaps, hd]
    · simp [weeklyLike, specWeeklyLike, specDistinctGaps, sortedGaps, hd]

/-- Witness for the amended C8: on the duplicate-free group
`[0, 7, 14]` the code's classification coincides with the claim's
distinct-dates reading. -/
theorem cadence_amended_witness :
    monthlyLike [0, 7, 14] = specMonthlyLike [0, 7, 14]
    ∧ weeklyLike [0, 7, 14] = specWeeklyLike [0, 7, 14] :=
  (cadence_amended [0, 7, 14]).2.2.2 (by decide)

/-- C9 is false as stated: the group `[0, 7, 14]` is weekly-like (gaps
`[7, 7]`, median 7), not monthly-like and not keyword-flagged; its last
observed date is `L = 14`, and with today = 28 the date `L + 7·2 = 28`
is of the form `L + 7k` and on or after today — yet the code projects
35: when `today - (L + 7)` is an exact positive multiple of 7 the
advance `((today - nd).days // 7 + 1) * 7` overshoots by one week. -/
theorem weekly_next_due_cex :
    groupNextDue [0, 7, 14] false 28 0 = some 35
    ∧ lastObserved [0, 7, 14] = 14
    ∧ (28 : Int) = 14 + 7 * 2
    ∧ ((28 : Int) ≤ 28)
    ∧ ((28 : Int) < 35) := by
  refine ⟨?_, by decide, by norm_num, by norm_num, by norm_num⟩
  norm_num [groupNextDue, monthlyLike, weeklyLike, sortedGaps, medianOf, lastObserved,
    nextDueWeekly, List.insertionSort, List.orderedInsert, diffs]

/-- C9 amended (proved): for a weekly-like group that is neither
monthly-like nor keyword-flagged with last observed date `L`, the
projected next due date is `L + 7` when that is on or after today;
otherwise the code advances by `(today - (L + 7)) // 7 + 1` weeks, which
lands on the first date of the form `L + 7k` on or after today whenever
`today - (L + 7)` is not an exact multiple of 7, and on `today + 7` —
one week past the first qualifying date — when it is. -/
theorem weekly_next_due_amended (dates : List Int) (kw : Bool) (today mc : Int)
    (hm : monthlyLike dates = false) (hk : kw = false) (hw : weeklyLike dates = true) :
    groupNextDue dates kw today mc
      = some (nextDueWeekly (lastObserved dates) today)
    ∧ (today ≤ lastObserved dates + 7 →
        nextDueWeekly (lastObserved dates) today = lastObserved dates + 7)
    ∧ (lastObserved dates + 7 < today →
        (∃ k : Int, 1 ≤ k
            ∧ nextDueWeekly (lastObserved dates) today = lastObserved dates + 7 * k)
        ∧ today ≤ nextDueWeekly (lastObserved dates) today
        ∧ nextDueWeekly (lastObserved dates) today ≤ today + 7
        ∧ (nextDueWeekly (lastObserved dates) today = today + 7
            ↔ (7 : Int) ∣ (today - (lastObserved dates + 7)))) := by
  refine ⟨by simp [groupNextDue, hm, hk, hw], ?_, ?_⟩
  · intro h
    unfold nextDueWeekly
    rw [if_pos h]
  · intro h
    unfold nextDueWeekly
    rw [if_neg (by omega)]
    refine ⟨⟨((today - (lastObserved dates + 7)).toNat / 7 : Int) + 2, by omega, by omega⟩,
      by omega, by omega, by constructor <;> (intro hx; omega)⟩

/-- Witness for the amended C9: the weekly group `[0, 7, 14]` with
today = 28. -/
theorem weekly_next_due_amended_witness :
    groupNextDue [0, 7, 14] false 28 0 = some (nextDueWeekly (lastObserved [0, 7, 14]) 28)
    ∧ (28 : Int) ≤ nextDueWeekly (lastObserved [0, 7, 14]) 28 := by
  have hm : monthlyLike [0, 7, 14] = false := by
    norm_num [monthlyLike, sortedGaps, medianOf, List.insertionSort, List.orderedInsert, diffs]
  have hw : weeklyLike [0, 7, 14] = true := by
    norm_num [weeklyLike, sortedGaps, medianOf, List.insertionSort, List.orderedInsert, diffs]
  have h := weekly_next_due_amended [0, 7, 14] false 28 0 hm rfl hw
  have hL : lastObserved [0, 7, 14] = 14 := by decide
  exact ⟨h.1, (h.2.2 (by rw [hL]; norm_num)).2.1⟩
